import Mathlib

/-!
Verification development for the MLX Omni Server bootstrap (`main.py`) and its
model wrapper cache.  The wrapper cache module itself is not part of the given
sources (only `main.py`, which configures it through environment variables, is),
so the cache is modelled from the specification; the argument parser, startup
sequence and CORS configuration are embedded from `main.py` directly.
-/

namespace MlxOmni

/-- Modelled from the spec: configuration of the model wrapper cache
(`max_size`, `ttl_seconds`), read once at construction. -/
structure CacheConfig where
  max_size : Nat
  ttl_seconds : Nat
deriving DecidableEq, Repr

/-- Modelled from the spec: a resident cache entry — key, owned wrapper
instance (represented by a numeric identity), last access time and insertion
order (used for LRU tie-breaking). -/
structure CacheEntry where
  key : String
  value : Nat
  last_access_time : Nat
  insertion_order : Nat
deriving DecidableEq, Repr

/-- Modelled from the spec: the wrapper cache state.  `released` is the
teardown-invocation log (one element per teardown hook call, in order) and
`teardown_failures` the log of teardown failures reported to the
observability collaborator. -/
structure WrapperCache where
  cfg : CacheConfig
  entries : List CacheEntry
  next_order : Nat
  released : List CacheEntry
  teardown_failures : List CacheEntry
deriving DecidableEq, Repr

/-- Modelled from the spec: an entry is expired when `ttl_seconds > 0` and its
idle age (now − last access) has reached `ttl_seconds`. -/
def isExpired (ttl now : Nat) (e : CacheEntry) : Bool :=
  decide (0 < ttl) && decide (ttl ≤ now - e.last_access_time)

/-- Modelled from the spec: TTL phase of an eviction sweep.  Wall-clock time
`now` is sampled once for the whole sweep; every expired entry is removed and
released (its teardown hook runs; `tf` says whether teardown raises, in which
case the failure is logged), regardless of size pressure. -/
def ttlSweep (tf : String → Bool) (now : Nat) (c : WrapperCache) : WrapperCache :=
  let expired := c.entries.filter (isExpired c.cfg.ttl_seconds now)
  { c with
    entries := c.entries.filter (fun e => !isExpired c.cfg.ttl_seconds now e)
    released := c.released ++ expired
    teardown_failures := c.teardown_failures ++ expired.filter (fun e => tf e.key) }

/-- Modelled from the spec: LRU order — smaller last access time first, ties
broken by earlier insertion. -/
def lruBefore (a b : CacheEntry) : Bool :=
  decide (a.last_access_time < b.last_access_time) ||
    (decide (a.last_access_time = b.last_access_time) &&
      decide (a.insertion_order < b.insertion_order))

/-- Modelled from the spec: select the least-recently-used entry. -/
def selectLRU : List CacheEntry → Option CacheEntry
  | [] => none
  | e :: es =>
    match selectLRU es with
    | none => some e
    | some m => if lruBefore m e then some m else some e

/-- Modelled from the spec: remove and release the least-recently-used entry.
The entry is removed from the bookkeeping whether or not its teardown hook
raises; a raising teardown is only logged. -/
def evictOne (tf : String → Bool) (c : WrapperCache) : WrapperCache :=
  match selectLRU c.entries with
  | none => c
  | some e =>
    { c with
      entries := c.entries.erase e
      released := c.released ++ [e]
      teardown_failures :=
        if tf e.key then c.teardown_failures ++ [e] else c.teardown_failures }

/-- Modelled from the spec: size phase of an eviction sweep — while the
resident count exceeds `max_size`, remove the LRU entry.  `n` is fuel; it is
always called with at least the entry count. -/
def sizeEvictN (tf : String → Bool) : Nat → WrapperCache → WrapperCache
  | 0, c => c
  | n + 1, c =>
    if c.cfg.max_size < c.entries.length then sizeEvictN tf n (evictOne tf c) else c

/-- Modelled from the spec: the size phase run to completion. -/
def sizeEvict (tf : String → Bool) (c : WrapperCache) : WrapperCache :=
  sizeEvictN tf c.entries.length c

/-- Modelled from the spec: a full eviction sweep — TTL expiry first, then
size pressure. -/
def evictIfNeeded (tf : String → Bool) (now : Nat) (c : WrapperCache) : WrapperCache :=
  sizeEvict tf (ttlSweep tf now c)

deriving instance DecidableEq for Except

/-- Result of an `acquire` call: the new cache state, the outcome handed to
the caller, and how many times the loader was invoked during the call. -/
structure AcquireResult where
  cache : WrapperCache
  result : Except String Nat
  loaderCalls : Nat
deriving DecidableEq, Repr

/-- Modelled from the spec: `acquire(key, loader)`.  On a hit the entry's
recency is refreshed and the cached instance returned without invoking the
loader.  On a miss the loader is invoked once; if it fails the failure
propagates unchanged and the cache is untouched; otherwise the new entry is
inserted as most recently used and an eviction sweep runs. -/
def acquire (tf : String → Bool) (now : Nat) (key : String)
    (loader : Except String Nat) (c : WrapperCache) : AcquireResult :=
  match c.entries.find? (fun e => e.key == key) with
  | some e =>
    { cache :=
        { c with
          entries := c.entries.map fun x =>
            if x.key == key then { x with last_access_time := now } else x }
      result := Except.ok e.value
      loaderCalls := 0 }
  | none =>
    match loader with
    | Except.error msg =>
      { cache := c, result := Except.error msg, loaderCalls := 1 }
    | Except.ok v =>
      let newEntry : CacheEntry := ⟨key, v, now, c.next_order⟩
      let inserted :=
        { c with entries := c.entries ++ [newEntry], next_order := c.next_order + 1 }
      { cache := evictIfNeeded tf now inserted
        result := Except.ok v
        loaderCalls := 1 }

/-- The empty cache for a given configuration. -/
def emptyCache (cfg : CacheConfig) : WrapperCache :=
  { cfg := cfg, entries := [], next_order := 0, released := [], teardown_failures := [] }

/-- One `acquire` call of a test trace: the wall-clock time of the call, the
requested key, and what the loader would produce if invoked. -/
structure Op where
  now : Nat
  key : String
  loader : Except String Nat
deriving DecidableEq, Repr

/-- Run a sequence of `acquire` calls from the empty cache. -/
def runOps (tf : String → Bool) (cfg : CacheConfig) (ops : List Op) : WrapperCache :=
  ops.foldl (fun c op => (acquire tf op.now op.key op.loader c).cache) (emptyCache cfg)

/-- A teardown hook that never raises. -/
def tfNone : String → Bool := fun _ => false

/-- Modelled from the spec: the wrapper cache constructor validates its
configuration — a negative max size or TTL is rejected with a configuration
error (never silently clamped); non-negative values are accepted. -/
def mkWrapperCache (max_size ttl_seconds : Int) : Except String WrapperCache :=
  if max_size < 0 || ttl_seconds < 0 then
    Except.error "invalid model cache configuration"
  else
    Except.ok (emptyCache ⟨max_size.toNat, ttl_seconds.toNat⟩)

/-! ## Embedding of `main.py` -/

/-- The command-line arguments as supplied on the command line: `none` means
the flag was not given (from `build_parser` in `main.py`). -/
structure ProvidedArgs where
  host : Option String
  port : Option Int
  workers : Option Int
  model_cache_max_size : Option Int
  model_cache_ttl_seconds : Option Int
  log_level : Option String
  cors_allow_origins : Option String
deriving DecidableEq, Repr

/-- The parsed arguments (every field resolved). -/
structure ServerArgs where
  host : String
  port : Int
  workers : Int
  model_cache_max_size : Int
  model_cache_ttl_seconds : Int
  log_level : String
  cors_allow_origins : String
deriving DecidableEq, Repr

/-- `build_parser().parse_args()`: each missing flag takes the default
declared in `build_parser` (`main.py` lines 24-71). -/
def parseArgs (p : ProvidedArgs) : ServerArgs :=
  { host := p.host.getD "0.0.0.0"
    port := p.port.getD 10240
    workers := p.workers.getD 1
    model_cache_max_size := p.model_cache_max_size.getD 3
    model_cache_ttl_seconds := p.model_cache_ttl_seconds.getD 300
    log_level := p.log_level.getD "info"
    cors_allow_origins := p.cors_allow_origins.getD "" }

/-- The observable actions of `start()` (`main.py` lines 102-133), in
program order. -/
inductive StartEvent where
  | setEnv (key value : String)
  | importWrapperCache
  | setLoggerLevel (level : String)
  | configureCors (origins : String)
  | runUvicorn (host : String) (port : Int) (level : String) (workers : Int)
deriving DecidableEq, Repr

/-- `start()` as its trace of observable actions: environment propagation of
the log level, CORS and cache settings, then the lazy import that constructs
the wrapper cache, then logger/CORS configuration and uvicorn. -/
def startTrace (args : ServerArgs) : List StartEvent :=
  [ StartEvent.setEnv "MLX_OMNI_LOG_LEVEL" args.log_level,
    StartEvent.setEnv "MLX_OMNI_CORS" args.cors_allow_origins,
    StartEvent.setEnv "MLX_OMNI_MODEL_CACHE_MAX_SIZE" (toString args.model_cache_max_size),
    StartEvent.setEnv "MLX_OMNI_MODEL_CACHE_TTL_SECONDS" (toString args.model_cache_ttl_seconds),
    StartEvent.importWrapperCache,
    StartEvent.setLoggerLevel args.log_level,
    StartEvent.configureCors args.cors_allow_origins,
    StartEvent.runUvicorn args.host args.port args.log_level args.workers ]

/-- Look up an environment variable (most recent setting wins). -/
def envLookup (env : List (String × String)) (k : String) : Option String :=
  (env.find? (fun kv => kv.1 == k)).map (fun kv => kv.2)

/-- The environment state at the moment `wrapper_cache` is imported (i.e. at
cache construction); `none` when the trace never imports it. -/
def envAtImport : List StartEvent → List (String × String) → Option (List (String × String))
  | [], _ => none
  | StartEvent.importWrapperCache :: _, env => some env
  | StartEvent.setEnv k v :: rest, env => envAtImport rest ((k, v) :: env)
  | _ :: rest, env => envAtImport rest env

/-! ### CORS middleware configuration -/

/-- A FastAPI middleware registration: either the CORS middleware with the
keyword arguments `configure_cors_middleware` passes, or some other
middleware class. -/
inductive MiddlewareEntry where
  | cors (allow_origins : List String) (allow_credentials : Bool)
      (allow_methods : List String) (allow_headers : List String)
  | other (name : String)
deriving DecidableEq, Repr

/-- Whether a registration is the CORS middleware class. -/
def MiddlewareEntry.isCORS : MiddlewareEntry → Bool
  | MiddlewareEntry.cors _ _ _ _ => true
  | MiddlewareEntry.other _ => false

/-- The parts of the FastAPI `app` object `configure_cors_middleware`
touches: the middleware list and the built middleware stack. -/
structure AppState where
  user_middleware : List MiddlewareEntry
  middleware_stack : Option Unit
deriving DecidableEq, Repr

/-- Python `str.strip()` whitespace. -/
def isPyWhitespace (ch : Char) : Bool :=
  ch = ' ' || ch = '\t' || ch = '\n' || ch = '\r' || ch = '\x0b' || ch = '\x0c'

/-- Python `str.strip()`: drop leading and trailing whitespace. -/
def pyStrip (s : String) : String :=
  String.mk (((s.toList.dropWhile isPyWhitespace).reverse.dropWhile isPyWhitespace).reverse)

/-- `configure_cors_middleware` (`main.py` lines 74-96): remove every
existing CORS middleware, reset the built stack, and register a fresh CORS
middleware whose origins are the comma-split stripped parts of the argument
(empty list for `None` or a falsy string).  FastAPI's `add_middleware`
prepends to `user_middleware`. -/
def configure_cors_middleware (cors_allow_origins : Option String) (s : AppState) : AppState :=
  let cleared := s.user_middleware.filter (fun m => !m.isCORS)
  let origins :=
    match cors_allow_origins with
    | none => []
    | some str => if str = "" then [] else (str.splitOn ",").map pyStrip
  { user_middleware := MiddlewareEntry.cors origins true ["*"] ["*"] :: cleared
    middleware_stack := none }

/-! ## Basic lemmas about the cache model -/

theorem selectLRU_mem {l : List CacheEntry} {e : CacheEntry}
    (h : selectLRU l = some e) : e ∈ l := by
  induction l with
  | nil => simp [selectLRU] at h
  | cons a as ih =>
    simp only [selectLRU] at h
    cases hs : selectLRU as with
    | none => rw [hs] at h; simp at h; simp [h]
    | some m =>
      rw [hs] at h
      by_cases hb : lruBefore m a
      · simp [hb] at h; subst h; exact List.mem_cons_of_mem _ (ih hs)
      · simp [hb] at h; simp [h]

theorem selectLRU_ne_nil {l : List CacheEntry} (h : l ≠ []) :
    ∃ e, selectLRU l = some e := by
  cases l with
  | nil => exact absurd rfl h
  | cons a as =>
    simp only [selectLRU]
    cases selectLRU as with
    | none => exact ⟨a, rfl⟩
    | some m =>
      by_cases hb : lruBefore m a
      · exact ⟨m, by simp [hb]⟩
      · exact ⟨a, by simp [hb]⟩

theorem evictOne_cfg (tf : String → Bool) (c : WrapperCache) :
    (evictOne tf c).cfg = c.cfg := by
  unfold evictOne
  cases selectLRU c.entries <;> rfl

theorem evictOne_length (tf : String → Bool) (c : WrapperCache)
    (h : c.entries ≠ []) :
    (evictOne tf c).entries.length = c.entries.length - 1 := by
  obtain ⟨e, he⟩ := selectLRU_ne_nil h
  simp only [evictOne, he]
  exact List.length_erase_of_mem (selectLRU_mem he)

theorem sizeEvictN_cfg (tf : String → Bool) (n : Nat) (c : WrapperCache) :
    (sizeEvictN tf n c).cfg = c.cfg := by
  induction n generalizing c with
  | zero => rfl
  | succ n ih =>
    simp only [sizeEvictN]
    by_cases h : c.cfg.max_size < c.entries.length
    · simp only [h, if_true]; rw [ih, evictOne_cfg]
    · simp [h]

theorem sizeEvictN_length (tf : String → Bool) (n : Nat) (c : WrapperCache)
    (h : c.entries.length ≤ c.cfg.max_size + n) :
    (sizeEvictN tf n c).entries.length ≤ c.cfg.max_size := by
  induction n generalizing c with
  | zero => simpa using h
  | succ n ih =>
    simp only [sizeEvictN]
    by_cases hgt : c.cfg.max_size < c.entries.length
    · simp only [hgt, if_true]
      have hne : c.entries ≠ [] := by
        intro hnil
        rw [hnil] at hgt
        simp at hgt
      have := ih (evictOne tf c) ?_
      · rwa [evictOne_cfg] at this
      · rw [evictOne_length tf c hne, evictOne_cfg]
        omega
    · simpa [hgt] using Nat.le_of_not_lt hgt

theorem sizeEvict_cfg (tf : String → Bool) (c : WrapperCache) :
    (sizeEvict tf c).cfg = c.cfg :=
  sizeEvictN_cfg tf c.entries.length c

theorem sizeEvict_length (tf : String → Bool) (c : WrapperCache) :
    (sizeEvict tf c).entries.length ≤ c.cfg.max_size :=
  sizeEvictN_length tf c.entries.length c (by omega)

theorem ttlSweep_cfg (tf : String → Bool) (now : Nat) (c : WrapperCache) :
    (ttlSweep tf now c).cfg = c.cfg := rfl

theorem evictIfNeeded_cfg (tf : String → Bool) (now : Nat) (c : WrapperCache) :
    (evictIfNeeded tf now c).cfg = c.cfg := by
  unfold evictIfNeeded
  rw [sizeEvict_cfg, ttlSweep_cfg]

theorem evictIfNeeded_length (tf : String → Bool) (now : Nat) (c : WrapperCache) :
    (evictIfNeeded tf now c).entries.length ≤ c.cfg.max_size := by
  unfold evictIfNeeded
  have := sizeEvict_length tf (ttlSweep tf now c)
  rwa [ttlSweep_cfg] at this

theorem acquire_cfg (tf : String → Bool) (now : Nat) (key : String)
    (loader : Except String Nat) (c : WrapperCache) :
    (acquire tf now key loader c).cache.cfg = c.cfg := by
  unfold acquire
  cases c.entries.find? (fun e => e.key == key) with
  | some e => rfl
  | none =>
    cases loader with
    | error msg => rfl
    | ok v => exact evictIfNeeded_cfg _ _ _

theorem acquire_length (tf : String → Bool) (now : Nat) (key : String)
    (loader : Except String Nat) (c : WrapperCache)
    (h : c.entries.length ≤ c.cfg.max_size) :
    (acquire tf now key loader c).cache.entries.length ≤ c.cfg.max_size := by
  unfold acquire
  cases c.entries.find? (fun e => e.key == key) with
  | some e => simpa using h
  | none =>
    cases loader with
    | error msg => simpa using h
    | ok v =>
      simp only
      have := evictIfNeeded_length tf now
        { c with
          entries := c.entries ++ [⟨key, v, now, c.next_order⟩]
          next_order := c.next_order + 1 }
      exact this

theorem foldl_acquire_invariant (tf : String → Bool) (ops : List Op)
    (c : WrapperCache) (h : c.entries.length ≤ c.cfg.max_size) :
    (ops.foldl (fun c op => (acquire tf op.now op.key op.loader c).cache) c).cfg = c.cfg ∧
      (ops.foldl (fun c op => (acquire tf op.now op.key op.loader c).cache) c).entries.length
        ≤ c.cfg.max_size := by
  induction ops generalizing c with
  | nil => exact ⟨rfl, h⟩
  | cons op rest ih =>
    simp only [List.foldl_cons]
    have hcfg := acquire_cfg tf op.now op.key op.loader c
    have hlen := acquire_length tf op.now op.key op.loader c h
    have := ih (acquire tf op.now op.key op.loader c).cache (by rw [hcfg]; exact hlen)
    rw [hcfg] at this
    exact this

/-- Claim C1: for every configured capacity N and every finite sequence of
`acquire` calls, the number of resident cache entries never exceeds N at the
moment any `acquire` call returns (every prefix of a call sequence is itself
such a sequence, so the bound at the end of every sequence gives the bound
after every call). -/
theorem claim_C1 (tf : String → Bool) (cfg : CacheConfig) (ops : List Op) :
    (runOps tf cfg ops).entries.length ≤ cfg.max_size := by
  have := foldl_acquire_invariant tf ops (emptyCache cfg) (by simp [emptyCache])
  exact this.2

theorem evictOne_subset (tf : String → Bool) (c : WrapperCache) :
    ∀ x ∈ (evictOne tf c).entries, x ∈ c.entries := by
  intro x hx
  unfold evictOne at hx
  cases hs : selectLRU c.entries with
  | none => rw [hs] at hx; exact hx
  | some e =>
    rw [hs] at hx
    simp only at hx
    exact List.mem_of_mem_erase hx

theorem sizeEvictN_subset (tf : String → Bool) (n : Nat) (c : WrapperCache) :
    ∀ x ∈ (sizeEvictN tf n c).entries, x ∈ c.entries := by
  induction n generalizing c with
  | zero => intro x hx; exact hx
  | succ n ih =>
    intro x hx
    simp only [sizeEvictN] at hx
    by_cases h : c.cfg.max_size < c.entries.length
    · rw [if_pos h] at hx
      exact evictOne_subset tf c x (ih (evictOne tf c) x hx)
    · rwa [if_neg h] at hx

/-- Claim C2: with `ttl_seconds = T > 0`, immediately after any eviction sweep
no resident entry has idle age (one `now` for the whole sweep) reaching T;
with `T = 0` the TTL phase removes nothing, whatever the elapsed time. -/
theorem claim_C2 (tf : String → Bool) (now : Nat) (c : WrapperCache) :
    (0 < c.cfg.ttl_seconds →
      ((evictIfNeeded tf now c).entries.all
        (fun e => decide (now - e.last_access_time < c.cfg.ttl_seconds))) = true) ∧
    (c.cfg.ttl_seconds = 0 → ttlSweep tf now c = c) := by
  constructor
  · intro httl
    rw [List.all_eq_true]
    intro e he
    have hmem : e ∈ (ttlSweep tf now c).entries :=
      sizeEvictN_subset tf (ttlSweep tf now c).entries.length (ttlSweep tf now c) e he
    simp only [ttlSweep, List.mem_filter] at hmem
    obtain ⟨-, hexp⟩ := hmem
    have hfalse : isExpired c.cfg.ttl_seconds now e = false := by
      simpa using hexp
    have hprop : ¬ (0 < c.cfg.ttl_seconds ∧
        c.cfg.ttl_seconds ≤ now - e.last_access_time) := by
      intro hand
      rw [isExpired] at hfalse
      simp [hand.1, hand.2] at hfalse
    rw [not_and] at hprop
    have := hprop httl
    simp only [decide_eq_true_eq]
    omega
  · intro h0
    cases c with
    | mk cfg entries next_order released teardown_failures =>
      simp only at h0
      simp [ttlSweep, isExpired, h0]

/-- Concrete instance of claim C2: a cache with TTL 5 holding one entry last
touched at time 0 is swept at time 7; afterwards no resident entry has idle
age 5 or more. -/
theorem claim_C2_witness :
    0 < (⟨⟨10, 5⟩, [⟨"A", 1, 0, 0⟩], 1, [], []⟩ : WrapperCache).cfg.ttl_seconds ∧
      ((evictIfNeeded tfNone 7 ⟨⟨10, 5⟩, [⟨"A", 1, 0, 0⟩], 1, [], []⟩).entries.all
        (fun e => decide (7 - e.last_access_time <
          (⟨⟨10, 5⟩, [⟨"A", 1, 0, 0⟩], 1, [], []⟩ : WrapperCache).cfg.ttl_seconds))) = true :=
  ⟨by decide, (claim_C2 tfNone 7 ⟨⟨10, 5⟩, [⟨"A", 1, 0, 0⟩], 1, [], []⟩).1 (by decide)⟩

/-- Claim C3: the sweep policy is TTL expiry first, then LRU eviction while
over capacity, ties on equal recency broken by evicting the earliest-inserted
entry.  Concretely: with `max_size = 2` and access order A, B, A, C the entry
evicted at C's insertion is B (A and C stay resident); with `max_size = 1` and
two entries of equal recency the earlier-inserted A is evicted; and with TTL 5
an idle-expired entry is evicted even though the cache is far under capacity
(`max_size = 10`). -/
theorem claim_C3 :
    (((runOps tfNone ⟨2, 0⟩
        [⟨0, "A", Except.ok 1⟩, ⟨1, "B", Except.ok 2⟩,
         ⟨2, "A", Except.ok 3⟩, ⟨3, "C", Except.ok 4⟩]).entries.map CacheEntry.key
        = ["A", "C"]) ∧
      ((runOps tfNone ⟨2, 0⟩
        [⟨0, "A", Except.ok 1⟩, ⟨1, "B", Except.ok 2⟩,
         ⟨2, "A", Except.ok 3⟩, ⟨3, "C", Except.ok 4⟩]).released.map CacheEntry.key
        = ["B"])) ∧
    (((runOps tfNone ⟨1, 0⟩
        [⟨0, "A", Except.ok 1⟩, ⟨0, "B", Except.ok 2⟩]).entries.map CacheEntry.key
        = ["B"]) ∧
      ((runOps tfNone ⟨1, 0⟩
        [⟨0, "A", Except.ok 1⟩, ⟨0, "B", Except.ok 2⟩]).released.map CacheEntry.key
        = ["A"])) ∧
    (((runOps tfNone ⟨10, 5⟩
        [⟨0, "A", Except.ok 1⟩, ⟨7, "B", Except.ok 2⟩]).entries.map CacheEntry.key
        = ["B"]) ∧
      ((runOps tfNone ⟨10, 5⟩
        [⟨0, "A", Except.ok 1⟩, ⟨7, "B", Except.ok 2⟩]).released.map CacheEntry.key
        = ["A"])) := by
  decide

/-- Claim C4: on a miss the loader is invoked at most once (in fact, at most
once on any `acquire`), and when the loader raises, `acquire` inserts nothing
— the cache state is exactly what it was before the call — and propagates the
loader's failure unchanged, with no retry. -/
theorem claim_C4 (tf : String → Bool) (now : Nat) (key msg : String)
    (c : WrapperCache)
    (hmiss : c.entries.find? (fun e => e.key == key) = none) :
    (∀ loader, (acquire tf now key loader c).loaderCalls ≤ 1) ∧
      acquire tf now key (Except.error msg) c =
        { cache := c, result := Except.error msg, loaderCalls := 1 } := by
  constructor
  · intro loader
    cases h : c.entries.find? (fun e => e.key == key) with
    | some e => simp [acquire, h]
    | none => cases loader <;> simp [acquire, h]
  · simp [acquire, hmiss]

/-- Concrete instance of claim C4: acquiring a missing key with a failing
loader invokes the loader once, leaves the empty cache empty and returns the
loader's error unchanged. -/
theorem claim_C4_witness :
    ((emptyCache ⟨3, 300⟩).entries.find? (fun e => e.key == "m1") = none) ∧
      (acquire tfNone 0 "m1" (Except.ok 5) (emptyCache ⟨3, 300⟩)).loaderCalls ≤ 1 ∧
      acquire tfNone 0 "m1" (Except.error "boom") (emptyCache ⟨3, 300⟩) =
        { cache := emptyCache ⟨3, 300⟩
          result := Except.error "boom"
          loaderCalls := 1 } :=
  ⟨by decide,
    (claim_C4 tfNone 0 "m1" "boom" (emptyCache ⟨3, 300⟩) (by decide)).1 (Except.ok 5),
    (claim_C4 tfNone 0 "m1" "boom" (emptyCache ⟨3, 300⟩) (by decide)).2⟩

theorem isExpired_self (ttl now : Nat) (e : CacheEntry)
    (h : e.last_access_time = now) : isExpired ttl now e = false := by
  simp only [isExpired, h, Nat.sub_self, Bool.and_eq_false_iff,
    decide_eq_false_iff_not, not_lt, not_le]
  omega

theorem sizeEvictN_of_le (tf : String → Bool) (n : Nat) (c : WrapperCache)
    (h : c.entries.length ≤ c.cfg.max_size) : sizeEvictN tf n c = c := by
  cases n with
  | zero => rfl
  | succ n => simp [sizeEvictN, Nat.not_lt.mpr h]

/-- Claim C5: from the empty cache (capacity positive), `acquire "m1"` invokes
the loader exactly once and returns the constructed instance; an immediately
following `acquire "m1"` with a second loader invokes it zero times, returns
the same instance, and refreshes the entry's recency to the time of the
second call (most recently used). -/
theorem claim_C5 (tf : String → Bool) (cfg : CacheConfig) (t1 t2 v : Nat)
    (loader2 : Except String Nat) (h : 0 < cfg.max_size) :
    (acquire tf t1 "m1" (Except.ok v) (emptyCache cfg)).loaderCalls = 1 ∧
    (acquire tf t1 "m1" (Except.ok v) (emptyCache cfg)).result = Except.ok v ∧
    (acquire tf t2 "m1" loader2
      (acquire tf t1 "m1" (Except.ok v) (emptyCache cfg)).cache).loaderCalls = 0 ∧
    (acquire tf t2 "m1" loader2
      (acquire tf t1 "m1" (Except.ok v) (emptyCache cfg)).cache).result = Except.ok v ∧
    (acquire tf t2 "m1" loader2
      (acquire tf t1 "m1" (Except.ok v) (emptyCache cfg)).cache).cache.entries
      = [⟨"m1", v, t2, 0⟩] := by
  have hexp : isExpired cfg.ttl_seconds t1 (⟨"m1", v, t1, 0⟩ : CacheEntry) = false :=
    isExpired_self _ _ _ rfl
  have hins : acquire tf t1 "m1" (Except.ok v) (emptyCache cfg) =
      { cache :=
          { cfg := cfg
            entries := [⟨"m1", v, t1, 0⟩]
            next_order := 1
            released := []
            teardown_failures := [] }
        result := Except.ok v
        loaderCalls := 1 } := by
    have hle : ((⟨cfg, [⟨"m1", v, t1, 0⟩], 1, [], []⟩ : WrapperCache)).entries.length
        ≤ cfg.max_size := by
      simpa using h
    simp [acquire, emptyCache, evictIfNeeded, ttlSweep, sizeEvict, hexp,
      sizeEvictN_of_le tf _ _ hle]
  rw [hins]
  simp [acquire, List.find?]

/-- Concrete instance of claim C5: miss then hit on key `"m1"` with capacity
3, loader producing instance 7 and a second loader producing 9. -/
theorem claim_C5_witness :
    0 < (⟨3, 300⟩ : CacheConfig).max_size ∧
      ((acquire tfNone 0 "m1" (Except.ok 7) (emptyCache ⟨3, 300⟩)).loaderCalls = 1 ∧
      (acquire tfNone 0 "m1" (Except.ok 7) (emptyCache ⟨3, 300⟩)).result = Except.ok 7 ∧
      (acquire tfNone 5 "m1" (Except.ok 9)
        (acquire tfNone 0 "m1" (Except.ok 7) (emptyCache ⟨3, 300⟩)).cache).loaderCalls = 0 ∧
      (acquire tfNone 5 "m1" (Except.ok 9)
        (acquire tfNone 0 "m1" (Except.ok 7) (emptyCache ⟨3, 300⟩)).cache).result = Except.ok 7 ∧
      (acquire tfNone 5 "m1" (Except.ok 9)
        (acquire tfNone 0 "m1" (Except.ok 7) (emptyCache ⟨3, 300⟩)).cache).cache.entries
        = [⟨"m1", 7, 5, 0⟩]) :=
  ⟨by decide, claim_C5 tfNone ⟨3, 300⟩ 0 5 7 (Except.ok 9) (by decide)⟩

/-- Claim C6: with `max_size = 0` (so the cache is empty before every call,
by claim C1), every `acquire` goes through the ordinary miss path: the loader
is invoked, the constructed entry is inserted and the very same sweep evicts
it again — the call returns the fresh instance, nothing stays resident, and
the entry's teardown hook runs (it is appended to the release log). -/
theorem claim_C6 (tf : String → Bool) (now : Nat) (key : String) (v : Nat)
    (c : WrapperCache) (h0 : c.cfg.max_size = 0) (he : c.entries = []) :
    (acquire tf now key (Except.ok v) c).loaderCalls = 1 ∧
    (acquire tf now key (Except.ok v) c).result = Except.ok v ∧
    (acquire tf now key (Except.ok v) c).cache.entries = [] ∧
    (acquire tf now key (Except.ok v) c).cache.released
      = c.released ++ [⟨key, v, now, c.next_order⟩] := by
  cases c with
  | mk cfg entries next_order released teardown_failures =>
    simp only at h0 he
    subst he
    have hexp : isExpired cfg.ttl_seconds now (⟨key, v, now, next_order⟩ : CacheEntry)
        = false := isExpired_self _ _ _ rfl
    simp [acquire, evictIfNeeded, ttlSweep, sizeEvict, sizeEvictN, evictOne,
      selectLRU, hexp, h0]

/-- Concrete instance of claim C6: with capacity 0, acquiring `"m1"` loads
instance 7, returns it, leaves the cache empty and tears the entry down. -/
theorem claim_C6_witness :
    (emptyCache ⟨0, 300⟩).cfg.max_size = 0 ∧ (emptyCache ⟨0, 300⟩).entries = [] ∧
      ((acquire tfNone 4 "m1" (Except.ok 7) (emptyCache ⟨0, 300⟩)).loaderCalls = 1 ∧
      (acquire tfNone 4 "m1" (Except.ok 7) (emptyCache ⟨0, 300⟩)).result = Except.ok 7 ∧
      (acquire tfNone 4 "m1" (Except.ok 7) (emptyCache ⟨0, 300⟩)).cache.entries = [] ∧
      (acquire tfNone 4 "m1" (Except.ok 7) (emptyCache ⟨0, 300⟩)).cache.released
        = (emptyCache ⟨0, 300⟩).released ++ [⟨"m1", 7, 4, (emptyCache ⟨0, 300⟩).next_order⟩]) :=
  ⟨by decide, by decide,
    claim_C6 tfNone 4 "m1" 7 (emptyCache ⟨0, 300⟩) (by decide) (by decide)⟩

theorem count_filter_split (p : CacheEntry → Bool) (l : List CacheEntry)
    (x : CacheEntry) :
    (l.filter (fun e => !p e)).count x + (l.filter p).count x = l.count x := by
  induction l with
  | nil => simp
  | cons a as ih =>
    by_cases hp : p a
    · simp [List.filter_cons, hp, List.count_cons]
      omega
    · rw [Bool.not_eq_true] at hp
      simp [List.filter_cons, hp, List.count_cons]
      omega

theorem count_filter_ite (q : CacheEntry → Bool) (l : List CacheEntry)
    (x : CacheEntry) :
    (l.filter q).count x = if q x then l.count x else 0 := by
  by_cases hq : q x
  · simp [hq, List.count_filter]
  · rw [if_neg hq]
    rw [List.count_eq_zero]
    intro hmem
    rw [List.mem_filter] at hmem
    exact absurd hmem.2 (by simp [hq])

theorem ttlSweep_count (tf : String → Bool) (now : Nat) (c : WrapperCache)
    (x : CacheEntry) :
    ((ttlSweep tf now c).entries.count x + (ttlSweep tf now c).released.count x
        = c.entries.count x + c.released.count x) ∧
    ((ttlSweep tf now c).entries.count x ≤ c.entries.count x) ∧
    ((ttlSweep tf now c).teardown_failures.count x
        = c.teardown_failures.count x +
          (if tf x.key then
            c.entries.count x - (ttlSweep tf now c).entries.count x else 0)) := by
  have hsplit := count_filter_split (isExpired c.cfg.ttl_seconds now) c.entries x
  refine ⟨?_, ?_, ?_⟩
  · simp only [ttlSweep, List.count_append]
    omega
  · simp only [ttlSweep]
    omega
  · simp only [ttlSweep, List.count_append]
    rw [count_filter_ite (fun e => tf e.key)
      (c.entries.filter (isExpired c.cfg.ttl_seconds now)) x]
    by_cases htf : tf x.key <;> simp [htf] <;> omega

theorem evictOne_count (tf : String → Bool) (c : WrapperCache) (x : CacheEntry) :
    ((evictOne tf c).entries.count x + (evictOne tf c).released.count x
        = c.entries.count x + c.released.count x) ∧
    ((evictOne tf c).entries.count x ≤ c.entries.count x) ∧
    ((evictOne tf c).teardown_failures.count x
        = c.teardown_failures.count x +
          (if tf x.key then
            c.entries.count x - (evictOne tf c).entries.count x else 0)) := by
  cases hs : selectLRU c.entries with
  | none => simp [evictOne, hs]
  | some e =>
    have hmem : e ∈ c.entries := selectLRU_mem hs
    have hpos : 0 < c.entries.count e := List.count_pos_iff.mpr hmem
    have herase : (c.entries.erase e).count x
        = c.entries.count x - if e = x then 1 else 0 := by
      simpa using List.count_erase x e c.entries
    simp only [evictOne, hs]
    refine ⟨?_, ?_, ?_⟩
    · rw [herase, List.count_append, List.count_singleton']
      by_cases hex : e = x
      · subst hex; simp only [if_true, if_pos rfl]; omega
      · simp [hex]
    · rw [herase]
      by_cases hex : e = x <;> simp [hex] <;> omega
    · rw [herase]
      by_cases hex : e = x
      · subst hex
        by_cases htf : tf e.key <;>
          simp [htf, List.count_append, List.count_singleton'] <;> omega
      · have hx0 : (([e] : List CacheEntry)).count x = 0 := by
          simp [List.count_singleton', hex]
        by_cases htf : tf x.key
        · simp only [htf, if_true, hex, if_false, Nat.sub_zero]
          by_cases htfe : tf e.key <;>
            simp [htfe, List.count_append, hx0]
        · simp only [htf, if_false, Nat.add_zero]
          by_cases htfe : tf e.key <;>
            simp [htfe, List.count_append, hx0]

theorem sizeEvictN_count (tf : String → Bool) (n : Nat) (c : WrapperCache)
    (x : CacheEntry) :
    ((sizeEvictN tf n c).entries.count x + (sizeEvictN tf n c).released.count x
        = c.entries.count x + c.released.count x) ∧
    ((sizeEvictN tf n c).entries.count x ≤ c.entries.count x) ∧
    ((sizeEvictN tf n c).teardown_failures.count x
        = c.teardown_failures.count x +
          (if tf x.key then
            c.entries.count x - (sizeEvictN tf n c).entries.count x else 0)) := by
  induction n generalizing c with
  | zero => simp [sizeEvictN]
  | succ n ih =>
    simp only [sizeEvictN]
    by_cases h : c.cfg.max_size < c.entries.length
    · simp only [h, if_true]
      obtain ⟨a1, b1, f1⟩ := evictOne_count tf c x
      obtain ⟨a2, b2, f2⟩ := ih (evictOne tf c)
      refine ⟨by omega, by omega, ?_⟩
      by_cases htf : tf x.key <;> simp [htf] at f1 f2 ⊢ <;> omega
    · simp [h]

theorem evictIfNeeded_count (tf : String → Bool) (now : Nat) (c : WrapperCache)
    (x : CacheEntry) :
    ((evictIfNeeded tf now c).entries.count x + (evictIfNeeded tf now c).released.count x
        = c.entries.count x + c.released.count x) ∧
    ((evictIfNeeded tf now c).entries.count x ≤ c.entries.count x) ∧
    ((evictIfNeeded tf now c).teardown_failures.count x
        = c.teardown_failures.count x +
          (if tf x.key then
            c.entries.count x - (evictIfNeeded tf now c).entries.count x else 0)) := by
  obtain ⟨a1, b1, f1⟩ := ttlSweep_count tf now c x
  obtain ⟨a2, b2, f2⟩ :=
    sizeEvictN_count tf (ttlSweep tf now c).entries.length (ttlSweep tf now c) x
  unfold evictIfNeeded sizeEvict
  refine ⟨by omega, by omega, ?_⟩
  by_cases htf : tf x.key <;> simp [htf] at f1 f2 ⊢ <;> omega

/-- Observable equality of two cache states: everything except the
teardown-failure log. -/
def ObsEq (c1 c2 : WrapperCache) : Prop :=
  c1.cfg = c2.cfg ∧ c1.entries = c2.entries ∧ c1.next_order = c2.next_order ∧
    c1.released = c2.released

theorem evictOne_obs (tf tf2 : String → Bool) (c1 c2 : WrapperCache)
    (h : ObsEq c1 c2) : ObsEq (evictOne tf c1) (evictOne tf2 c2) := by
  obtain ⟨hc, he, hn, hr⟩ := h
  unfold evictOne
  rw [he]
  cases hs : selectLRU c2.entries with
  | none => exact ⟨hc, he, hn, hr⟩
  | some e => exact ⟨hc, rfl, hn, by rw [hr]⟩

theorem sizeEvictN_obs (tf tf2 : String → Bool) (n : Nat) (c1 c2 : WrapperCache)
    (h : ObsEq c1 c2) : ObsEq (sizeEvictN tf n c1) (sizeEvictN tf2 n c2) := by
  induction n generalizing c1 c2 with
  | zero => exact h
  | succ n ih =>
    obtain ⟨hc, he, hn, hr⟩ := h
    simp only [sizeEvictN]
    rw [hc, he]
    by_cases hcond : c2.cfg.max_size < c2.entries.length
    · simp only [hcond, if_true]
      exact ih _ _ (evictOne_obs tf tf2 c1 c2 ⟨hc, he, hn, hr⟩)
    · simp only [hcond, if_false]
      exact ⟨hc, he, hn, hr⟩

theorem ttlSweep_obs (tf tf2 : String → Bool) (now : Nat) (c1 c2 : WrapperCache)
    (h : ObsEq c1 c2) : ObsEq (ttlSweep tf now c1) (ttlSweep tf2 now c2) := by
  obtain ⟨hc, he, hn, hr⟩ := h
  exact ⟨by simp [ttlSweep, hc], by simp [ttlSweep, hc, he], by simp [ttlSweep, hn],
    by simp [ttlSweep, hc, he, hr]⟩

theorem evictIfNeeded_obs (tf tf2 : String → Bool) (now : Nat) (c1 c2 : WrapperCache)
    (h : ObsEq c1 c2) : ObsEq (evictIfNeeded tf now c1) (evictIfNeeded tf2 now c2) := by
  have h1 := ttlSweep_obs tf tf2 now c1 c2 h
  unfold evictIfNeeded sizeEvict
  rw [h1.2.1]
  exact sizeEvictN_obs tf tf2 _ _ _ h1

theorem acquire_obs (tf tf2 : String → Bool) (now : Nat) (key : String)
    (loader : Except String Nat) (c1 c2 : WrapperCache) (h : ObsEq c1 c2) :
    ObsEq (acquire tf now key loader c1).cache (acquire tf2 now key loader c2).cache ∧
      (acquire tf now key loader c1).result = (acquire tf2 now key loader c2).result ∧
      (acquire tf now key loader c1).loaderCalls
        = (acquire tf2 now key loader c2).loaderCalls := by
  obtain ⟨hc, he, hn, hr⟩ := h
  unfold acquire
  rw [he]
  cases hf : c2.entries.find? (fun e => e.key == key) with
  | some e => exact ⟨⟨hc, rfl, hn, hr⟩, rfl, rfl⟩
  | none =>
    cases loader with
    | error msg => exact ⟨⟨hc, he, hn, hr⟩, rfl, rfl⟩
    | ok v =>
      refine ⟨?_, rfl, rfl⟩
      exact evictIfNeeded_obs tf tf2 now _ _ ⟨hc, by rw [hn], by rw [hn], hr⟩

/-- Claim C7: release accounting and teardown-failure containment.  For every
sweep, each entry removed from the residents is appended to the teardown log
exactly once and nothing else is (count conservation plus monotonicity); an
entry already absent is never torn down again by a subsequent sweep (the
sequential rendering of two sweeps racing on one key); a removed entry whose
teardown raised is logged to the failure report yet still removed; and the
entries, release log and caller-visible result of `acquire` are identical
whatever the teardown hooks do — an error reaches the caller only as a loader
failure. -/
theorem claim_C7 (tf tf2 : String → Bool) (now now2 : Nat) (c : WrapperCache)
    (x : CacheEntry) :
    ((evictIfNeeded tf now c).entries.count x + (evictIfNeeded tf now c).released.count x
        = c.entries.count x + c.released.count x) ∧
    ((evictIfNeeded tf now c).entries.count x ≤ c.entries.count x) ∧
    ((evictIfNeeded tf now c).teardown_failures.count x
        = c.teardown_failures.count x +
          (if tf x.key then
            c.entries.count x - (evictIfNeeded tf now c).entries.count x else 0)) ∧
    (x ∉ (evictIfNeeded tf now c).entries →
      (evictIfNeeded tf2 now2 (evictIfNeeded tf now c)).released.count x
        = (evictIfNeeded tf now c).released.count x) ∧
    (∀ (key : String) (loader : Except String Nat),
      (acquire tf now key loader c).cache.entries
          = (acquire tf2 now key loader c).cache.entries ∧
        (acquire tf now key loader c).cache.released
          = (acquire tf2 now key loader c).cache.released ∧
        (acquire tf now key loader c).result = (acquire tf2 now key loader c).result) ∧
    (∀ (key : String) (loader : Except String Nat) (m : String),
      (acquire tf now key loader c).result = Except.error m → loader = Except.error m) := by
  obtain ⟨a1, b1, f1⟩ := evictIfNeeded_count tf now c x
  refine ⟨a1, b1, f1, ?_, ?_, ?_⟩
  · intro hnot
    obtain ⟨a2, b2, -⟩ := evictIfNeeded_count tf2 now2 (evictIfNeeded tf now c) x
    have hz : (evictIfNeeded tf now c).entries.count x = 0 := List.count_eq_zero.mpr hnot
    omega
  · intro key loader
    have hobs := acquire_obs tf tf2 now key loader c c ⟨rfl, rfl, rfl, rfl⟩
    exact ⟨hobs.1.2.1, hobs.1.2.2.2, hobs.2.1⟩
  · intro key loader m hres
    cases hf : c.entries.find? (fun e => e.key == key) with
    | some e => simp [acquire, hf] at hres
    | none =>
      cases loader with
      | error msg =>
        simp [acquire, hf] at hres
        rw [hres]
      | ok v => simp [acquire, hf] at hres

/-- Concrete instance of claim C7: with capacity 0 a sweep at time 0 evicts
the sole entry; a second sweep at time 1 does not invoke its teardown hook
again (its count in the release log is unchanged). -/
theorem claim_C7_witness :
    ((⟨"A", 1, 0, 0⟩ : CacheEntry)
        ∉ (evictIfNeeded tfNone 0 ⟨⟨0, 0⟩, [⟨"A", 1, 0, 0⟩], 1, [], []⟩).entries) ∧
      (evictIfNeeded tfNone 1
          (evictIfNeeded tfNone 0 ⟨⟨0, 0⟩, [⟨"A", 1, 0, 0⟩], 1, [], []⟩)).released.count
          ⟨"A", 1, 0, 0⟩
        = (evictIfNeeded tfNone 0
            ⟨⟨0, 0⟩, [⟨"A", 1, 0, 0⟩], 1, [], []⟩).released.count ⟨"A", 1, 0, 0⟩ :=
  ⟨by decide,
    (claim_C7 tfNone tfNone 0 1 ⟨⟨0, 0⟩, [⟨"A", 1, 0, 0⟩], 1, [], []⟩
      ⟨"A", 1, 0, 0⟩).2.2.2.1 (by decide)⟩

/-- Environment lookup at the moment the wrapper cache module is imported. -/
def envLookupAtImport (events : List StartEvent) (k : String) : Option String :=
  (envAtImport events []).bind (fun env => envLookup env k)

/-- Claim C8: when the model cache max size flag is not supplied it parses to
3 and the TTL flag to 300; `start` writes both values to the environment and
only then imports (constructs) the wrapper cache, so the cache sees them. -/
theorem claim_C8 (p : ProvidedArgs) (h1 : p.model_cache_max_size = none)
    (h2 : p.model_cache_ttl_seconds = none) :
    (parseArgs p).model_cache_max_size = 3 ∧
    (parseArgs p).model_cache_ttl_seconds = 300 ∧
    (envAtImport (startTrace (parseArgs p)) []).isSome = true ∧
    envLookupAtImport (startTrace (parseArgs p)) "MLX_OMNI_MODEL_CACHE_MAX_SIZE"
      = some "3" ∧
    envLookupAtImport (startTrace (parseArgs p)) "MLX_OMNI_MODEL_CACHE_TTL_SECONDS"
      = some "300" := by
  have h3 : toString (3 : Int) = "3" := rfl
  have h300 : toString (300 : Int) = "300" := rfl
  refine ⟨by simp [parseArgs, h1], by simp [parseArgs, h2], ?_, ?_, ?_⟩ <;>
    simp [parseArgs, h1, h2, startTrace, envAtImport, envLookupAtImport, envLookup,
      List.find?, h3, h300]

/-- Concrete instance of claim C8: no flags supplied at all. -/
theorem claim_C8_witness :
    (⟨none, none, none, none, none, none, none⟩ : ProvidedArgs).model_cache_max_size
        = none ∧
      ((parseArgs ⟨none, none, none, none, none, none, none⟩).model_cache_max_size = 3 ∧
      (parseArgs ⟨none, none, none, none, none, none, none⟩).model_cache_ttl_seconds = 300 ∧
      (envAtImport (startTrace (parseArgs ⟨none, none, none, none, none, none, none⟩))
        []).isSome = true ∧
      envLookupAtImport (startTrace (parseArgs ⟨none, none, none, none, none, none, none⟩))
        "MLX_OMNI_MODEL_CACHE_MAX_SIZE" = some "3" ∧
      envLookupAtImport (startTrace (parseArgs ⟨none, none, none, none, none, none, none⟩))
        "MLX_OMNI_MODEL_CACHE_TTL_SECONDS" = some "300") :=
  ⟨rfl, claim_C8 ⟨none, none, none, none, none, none, none⟩ rfl rfl⟩

/-- Claim C9: a negative model cache max size or TTL is rejected at cache
construction with a configuration error — never silently clamped — and a
non-negative configuration is never rejected. -/
theorem claim_C9 (max_size ttl_seconds : Int) :
    ((max_size < 0 ∨ ttl_seconds < 0) →
      ∃ msg, mkWrapperCache max_size ttl_seconds = Except.error msg) ∧
    (0 ≤ max_size → 0 ≤ ttl_seconds →
      mkWrapperCache max_size ttl_seconds
        = Except.ok (emptyCache ⟨max_size.toNat, ttl_seconds.toNat⟩)) := by
  constructor
  · intro h
    have hcond : (decide (max_size < 0) || decide (ttl_seconds < 0)) = true := by
      rcases h with h | h <;> simp [h]
    exact ⟨"invalid model cache configuration", by simp [mkWrapperCache, hcond]⟩
  · intro h1 h2
    have hcond : (decide (max_size < 0) || decide (ttl_seconds < 0)) = false := by
      simp only [Bool.or_eq_false_iff, decide_eq_false_iff_not, not_lt]
      omega
    simp [mkWrapperCache, hcond]

/-- Concrete instances of claim C9: max size −1 is rejected; the default
configuration 3/300 is accepted unchanged. -/
theorem claim_C9_witness :
    ((-1 : Int) < 0 ∨ (300 : Int) < 0) ∧
      (∃ msg, mkWrapperCache (-1) 300 = Except.error msg) ∧
      (0 ≤ (3 : Int)) ∧ (0 ≤ (300 : Int)) ∧
      mkWrapperCache 3 300
        = Except.ok (emptyCache ⟨(3 : Int).toNat, (300 : Int).toNat⟩) :=
  ⟨Or.inl (by decide), (claim_C9 (-1) 300).1 (Or.inl (by decide)), by decide, by decide,
    (claim_C9 3 300).2 (by decide) (by decide)⟩

/-- The allow list the claim describes: the comma-split, whitespace-stripped
parts of the argument when it is a non-empty string, and the empty list when
the argument is `None` or the empty string. -/
def specOrigins (x : Option String) : List String :=
  match x with
  | none => []
  | some str => if str = "" then [] else (str.splitOn ",").map pyStrip

/-- Claim C10: after every call to `configure_cors_middleware` the middleware
list holds exactly one CORS entry (existing ones are removed first), a second
call with the same argument is a no-op, and the registered entry's
`allow_origins` is exactly `specOrigins` of the argument. -/
theorem claim_C10 (s : AppState) (x : Option String) :
    ((configure_cors_middleware x s).user_middleware.filter
        MiddlewareEntry.isCORS).length = 1 ∧
    configure_cors_middleware x (configure_cors_middleware x s)
      = configure_cors_middleware x s ∧
    (configure_cors_middleware x s).user_middleware.find? MiddlewareEntry.isCORS
      = some (MiddlewareEntry.cors (specOrigins x) true ["*"] ["*"]) := by
  have hdrop : ∀ (l : List MiddlewareEntry),
      (l.filter (fun m => !m.isCORS)).filter MiddlewareEntry.isCORS = [] := by
    intro l
    rw [List.filter_filter]
    have : (fun a => MiddlewareEntry.isCORS a && !a.isCORS) = fun _ => false := by
      funext a
      simp
    simp [this]
  have hidem : ∀ (l : List MiddlewareEntry),
      (l.filter (fun m => !m.isCORS)).filter (fun m => !m.isCORS)
        = l.filter (fun m => !m.isCORS) := by
    intro l
    rw [List.filter_filter]
    congr 1
    funext a
    exact Bool.and_self _
  refine ⟨?_, ?_, ?_⟩
  · simp [configure_cors_middleware, List.filter_cons, MiddlewareEntry.isCORS, hdrop]
  · simp [configure_cors_middleware, List.filter_cons, MiddlewareEntry.isCORS, hidem]
  · simp [configure_cors_middleware, List.find?, MiddlewareEntry.isCORS, specOrigins]

end MlxOmni
